import Mathlib

/-!
Shallow embedding of the MarketMonteCarlo core (src/src/simulator.py and
src/src/analytics.py).

Conventions of the embedding:
* a numpy 2-D array is a list of rows (`Mat`); numeric entries live in a
  linear ordered field (`ℚ` for the purely arithmetic metrics, `ℝ` where the
  source applies `np.log`, `np.exp` or `np.sqrt`);
* `np.mean` of an empty array is NaN in numpy; it is modelled as `none`;
* an IEEE division whose divisor is zero yields a non-finite value
  (`inf`/`nan`), modelled as `none` via `fdiv`;
* the float literals `0.5` and `0.3` of `validity_check` are modelled by the
  exact rationals `1/2` and `3/10`; for the integer operands the code compares
  them with, the binary rounding of `0.3` never changes the outcome of the
  comparison, so the embedding agrees with the float code there;
* the entropy source `np.random.standard_normal` is injected as an explicit
  matrix `z` of draws, following the spec's seedable-generator design note.
-/

namespace MarketMC

/-- A price matrix: one row per simulated trajectory. -/
abbrev Mat (α : Type) := List (List α)

section GenericField

variable {α : Type} [LinearOrderedField α] [FloorRing α]

/-- `np.mean`: sum divided by length.  numpy returns NaN (with a warning) on an
empty array; that undefined value is modelled as `none`. -/
def npMean (xs : List α) : Option α :=
  match xs with
  | [] => none
  | _ => some (xs.sum / (xs.length : α))

/-- `np.max` along a row.  Every use in the source is on a nonempty row
(numpy raises on an empty one; the `[]` case below is unreachable junk). -/
def npMax (xs : List α) : α :=
  match xs with
  | [] => 0
  | x :: t => t.foldl max x

/-- Helper for `np.maximum.accumulate`: running maximum continuing from `c`. -/
def runMaxFrom (c : α) : List α → List α
  | [] => [c]
  | x :: xs => c :: runMaxFrom (max c x) xs

/-- `np.maximum.accumulate` along a row. -/
def runningMax : List α → List α
  | [] => []
  | x :: xs => runMaxFrom x xs

/-- `np.percentile` with numpy's default linear interpolation on the ascending
sort: position `q/100 * (n-1)`, result interpolated between the two nearest
order statistics.  numpy raises on an empty array (unreachable under the
well-formedness hypotheses of the theorems below). -/
def percentile (q : α) (xs : List α) : α :=
  let s := xs.insertionSort (fun a b => a ≤ b)
  let n := s.length
  let pos : α := q / 100 * ((n : α) - 1)
  let i : ℤ := ⌊pos⌋
  let lo := s.getD i.toNat 0
  let hi := s.getD (i.toNat + 1) 0
  lo + (pos - (i : α)) * (hi - lo)

/-- One row of the drawdown matrix: `(peak - price) / peak` at each step,
where `peak` is the running maximum (`_calculate_drawdown_matrix`). -/
def drawdownRow (row : List α) : List α :=
  List.zipWith (fun p x => (p - x) / p) (runningMax row) row

/-- The drawdown matrix of `_calculate_drawdown_matrix` (the memoization cache
is behaviourally transparent: the cached value equals this pure function). -/
def drawdownMatrix (pm : Mat α) : Mat α := pm.map drawdownRow

/-- The `Analytics` object of analytics.py after construction. -/
structure Analytics (α : Type) where
  price_matrix : Mat α
  start_price : α
  len_history : ℕ
  len_simulation : ℕ
  annual_periods : ℕ

/-- `Analytics.__init__`: reads `price_matrix[0, 0]` (an IndexError — modelled
`none` — when the matrix has no first row or that row is empty) and
`shape[1] - 1`; it performs no other validation of the matrix. -/
def Analytics.init (pm : Mat α) (len_history : ℕ) (annual_periods : ℕ) :
    Option (Analytics α) :=
  match pm with
  | [] => none
  | row :: _ =>
    match row with
    | [] => none
    | x :: _ => some ⟨pm, x, len_history, row.length - 1, annual_periods⟩

/-- `price_matrix[:, -1]`: the terminal price of every trajectory. -/
def Analytics.finalPrices (a : Analytics α) : List α :=
  a.price_matrix.map (fun r => r.getLastD 0)

/-- The result record of `get_risk_metrics`.  The CVaR fields are `Option`
because the source takes `np.mean` of the (possibly empty) set of terminal
prices strictly below the 5th percentile. -/
structure RiskMetrics (α : Type) where
  var_dollar : α
  cvar_dollar : Option α
  var_pct : α
  cvar_pct : Option α

/-- `Analytics.get_risk_metrics`: VaR/CVaR at the 5th percentile of terminal
prices. -/
def Analytics.get_risk_metrics (a : Analytics α) : RiskMetrics α :=
  let final_price := a.finalPrices
  let fifth_perc := percentile 5 final_price
  let var_dollar := a.start_price - fifth_perc
  let cvar_dollar :=
    (npMean (final_price.filter (fun x => x < fifth_perc))).map
      (fun m => a.start_price - m)
  ⟨var_dollar, cvar_dollar, var_dollar / a.start_price,
    cvar_dollar.map (fun c => c / a.start_price)⟩

/-- `Analytics.get_average_maximum_drawdown`: per-trajectory maximum drawdown,
then the 95th percentile across trajectories. -/
def Analytics.get_average_maximum_drawdown (a : Analytics α) : α :=
  percentile 95 ((drawdownMatrix a.price_matrix).map npMax)

/-- `Analytics.validity_check`: the (status, reason) pair of the returned
dict.  The float constants 0.5 and 0.3 are the exact rationals 1/2 and 3/10
(see the header note). -/
def Analytics.validity_check (a : Analytics α) : String × String :=
  if (a.len_simulation : α) > 1 / 2 * (a.len_history : α) then
    ("Critical", "Not enough historical data for simulation of this length")
  else if (a.len_simulation : α) > 3 / 10 * (a.len_history : α) then
    ("Warning", "Simulation duration is long relative to historical data")
  else
    ("Safe", "")

end GenericField

/-- The `stats` dict consumed by `generate_price_paths` (produced upstream by
`calculate_analytics`): mean log return `mu`, its standard deviation `sigma`,
and the last observed price. -/
structure ReturnStatistics where
  mu : ℝ
  sigma : ℝ
  last_price : ℝ

/-- Helper for `np.cumprod`: running product continuing from accumulator `c`. -/
def cumprodFrom (c : ℝ) : List ℝ → List ℝ
  | [] => []
  | x :: xs => (c * x) :: cumprodFrom (c * x) xs

/-- `np.cumprod` along a row. -/
def cumprod (xs : List ℝ) : List ℝ := cumprodFrom 1 xs

/-- `generate_price_paths` of simulator.py.  The standard-normal draw for
trajectory `i`, step `t` is `z i t` (injected entropy source). -/
noncomputable def generate_price_paths (stats : ReturnStatistics)
    (days iterations : ℕ) (z : ℕ → ℕ → ℝ) : Mat ℝ :=
  let drift := stats.mu - 1 / 2 * stats.sigma ^ 2
  (List.range iterations).map (fun i =>
    let daily_change :=
      (List.range days).map (fun t => Real.exp (drift + stats.sigma * z i t))
    stats.last_price :: (cumprod daily_change).map (fun c => stats.last_price * c))

/-- `np.std`: population standard deviation, `none` on an empty array (numpy
returns NaN there). -/
noncomputable def npStd (xs : List ℝ) : Option ℝ :=
  (npMean xs).map (fun m =>
    Real.sqrt ((xs.map (fun x => (x - m) ^ 2)).sum / (xs.length : ℝ)))

/-- The result record of `get_final_stats` (field order follows the returned
dict). -/
structure FinalStats where
  mean : ℝ
  probability_of_profit : ℝ
  std_dev : ℝ

/-- `Analytics.get_final_stats`: mean, probability of profit and population
standard deviation of the terminal prices. -/
noncomputable def Analytics.get_final_stats (a : Analytics ℝ) : Option FinalStats :=
  let final_price := a.finalPrices
  match npMean final_price, npStd final_price,
      npMean (final_price.map (fun p => if a.start_price < p then (1 : ℝ) else 0)) with
  | some m, some s, some pr => some ⟨m, pr, s⟩
  | _, _, _ => none

/-- `_calculate_log_return_matrix`: `np.diff(np.log(price_matrix), axis=1)`
(the memoization cache is behaviourally transparent). -/
noncomputable def logReturnMatrix (pm : Mat ℝ) : Mat ℝ :=
  pm.map (fun row => List.zipWith (fun a b => Real.log b - Real.log a) row row.tail)

/-- IEEE float division: a zero divisor yields a non-finite value
(`inf`/`nan`), modelled as `none`. -/
noncomputable def fdiv (a b : ℝ) : Option ℝ :=
  if b = 0 then none else some (a / b)

/-- `Analytics.get_expected_sharpe_ratio`.  The division by the standard
deviation of the period log returns is NOT guarded against a zero divisor in
the source; `fdiv` makes the resulting non-finite value observable as `none`. -/
noncomputable def Analytics.get_expected_sharpe_ratio (a : Analytics ℝ)
    (risk_free_rate : ℝ) : Option ℝ :=
  let rf_rate_period := Real.log (1 + risk_free_rate) / (a.annual_periods : ℝ)
  let period_return := (logReturnMatrix a.price_matrix).flatten
  match npMean period_return, npStd period_return with
  | some mean, some std_dev =>
    (fdiv (mean - rf_rate_period) std_dev).map
      (fun r => r * Real.sqrt (a.annual_periods : ℝ))
  | _, _ => none

/-- `Analytics.get_expected_sortino_ratio`.  The source checks
`root_mean_square_return == 0` and returns `0` before dividing. -/
noncomputable def Analytics.get_expected_sortino_ratio (a : Analytics ℝ)
    (risk_free_rate : ℝ) : Option ℝ :=
  let rf_rate_period := Real.log (1 + risk_free_rate) / (a.annual_periods : ℝ)
  let period_return := (logReturnMatrix a.price_matrix).flatten
  let downside_returns := period_return.map (fun r =>
    if r - rf_rate_period < 0 then r - rf_rate_period else 0)
  match npMean (downside_returns.map (fun d => d ^ 2)), npMean period_return with
  | some msq, some mean =>
    let root_mean_square_return := Real.sqrt msq
    if root_mean_square_return = 0 then some 0
    else
      (fdiv (mean - rf_rate_period) root_mean_square_return).map
        (fun r => r * Real.sqrt (a.annual_periods : ℝ))
  | _, _ => none

/-- The free function `validity_check` of simulator.py (same thresholds,
single-string verdicts). -/
def validity_check (len_history len_simulation : ℕ) : String :=
  if (len_simulation : ℚ) > 1 / 2 * (len_history : ℚ) then
    "Critical: Not enough historical data for simulation of this length"
  else if (len_simulation : ℚ) > 3 / 10 * (len_history : ℚ) then
    "Warning: Simulation duration is long relative to historical data"
  else
    "Safe"

/-! ### Helper lemmas -/

theorem npMean_of_ne_nil {α : Type} [LinearOrderedField α] (xs : List α) (h : xs ≠ []) :
    npMean xs = some (xs.sum / (xs.length : α)) := by
  cases xs with
  | nil => exact absurd rfl h
  | cons x t => rfl

theorem sum_le_length_mul {α : Type} [LinearOrderedField α] (b : α) :
    ∀ l : List α, (∀ x ∈ l, x < b) → l.sum ≤ (l.length : α) * b := by
  intro l
  induction l with
  | nil => intro _; simp
  | cons x t ih =>
    intro h
    have hx := h x (by simp)
    have ht := ih (fun y hy => h y (by simp [hy]))
    simp only [List.sum_cons, List.length_cons]
    push_cast
    linarith

theorem npMean_lt_of_forall_lt {α : Type} [LinearOrderedField α]
    (l : List α) (b : α) (hne : l ≠ []) (h : ∀ x ∈ l, x < b) :
    ∃ m, npMean l = some m ∧ m < b := by
  refine ⟨l.sum / (l.length : α), npMean_of_ne_nil l hne, ?_⟩
  have hlen : (0 : α) < (l.length : α) := by
    exact_mod_cast List.length_pos.mpr hne
  rw [div_lt_iff₀ hlen]
  rcases l with _ | ⟨x, t⟩
  · exact absurd rfl hne
  · have hx := h x (by simp)
    have ht := sum_le_length_mul b t (fun y hy => h y (by simp [hy]))
    simp only [List.sum_cons, List.length_cons]
    push_cast
    linarith

/-! ### C1 — CVaR in the degenerate no-sample-below-percentile case -/

/-- C1 counterexample: on the well-formed strictly-positive matrix whose
terminal prices are all equal (`[[100,100],[100,100],[100,100]]`), the
risk-metrics operation does NOT return a defined fallback for CVaR: VaR is 0
but CVaR is the mean of an empty set (NaN in numpy, `none` here), contradicting
the claim that a documented fallback value is returned. -/
theorem risk_cvar_degenerate_counterexample :
    ((Analytics.mk [[(100:ℚ),100],[100,100],[100,100]] 100 10 1 252).get_risk_metrics).var_dollar
      = 0 ∧
    ((Analytics.mk [[(100:ℚ),100],[100,100],[100,100]] 100 10 1 252).get_risk_metrics).cvar_dollar
      = none := by
  have hfp : (Analytics.mk [[(100:ℚ),100],[100,100],[100,100]] 100 10 1 252).finalPrices
      = [100,100,100] := by
    simp [Analytics.finalPrices]
  have hp : percentile 5 [(100:ℚ),100,100] = 100 := by
    simp [percentile, List.insertionSort, List.orderedInsert]
    norm_num
  constructor <;> simp [Analytics.get_risk_metrics, hfp, hp, npMean]

/-- C1 amended: whenever no terminal price falls strictly below the 5th
percentile of terminal prices, `get_risk_metrics` propagates the undefined
mean of an empty set: both CVaR fields are `none` (NaN in the source); no
fallback value is substituted. -/
theorem risk_cvar_none_of_no_below {α : Type} [LinearOrderedField α] [FloorRing α]
    (a : Analytics α) (_hne : a.finalPrices ≠ [])
    (h : ∀ f ∈ a.finalPrices, ¬ f < percentile 5 a.finalPrices) :
    (a.get_risk_metrics).cvar_dollar = none ∧ (a.get_risk_metrics).cvar_pct = none := by
  have hf : a.finalPrices.filter (fun x => decide (x < percentile 5 a.finalPrices)) = [] := by
    simp only [List.filter_eq_nil_iff, decide_eq_true_eq]
    exact h
  constructor <;> simp [Analytics.get_risk_metrics, hf, npMean]

/-- Witness for `risk_cvar_none_of_no_below` at the constant matrix. -/
theorem risk_cvar_none_of_no_below_witness :
    ((Analytics.mk [[(100:ℚ),100],[100,100],[100,100]] 100 10 1 252).finalPrices ≠ [] ∧
      ∀ f ∈ (Analytics.mk [[(100:ℚ),100],[100,100],[100,100]] 100 10 1 252).finalPrices,
        ¬ f < percentile 5 (Analytics.mk [[(100:ℚ),100],[100,100],[100,100]] 100 10 1 252).finalPrices) ∧
    ((Analytics.mk [[(100:ℚ),100],[100,100],[100,100]] 100 10 1 252).get_risk_metrics).cvar_dollar
      = none ∧
    ((Analytics.mk [[(100:ℚ),100],[100,100],[100,100]] 100 10 1 252).get_risk_metrics).cvar_pct
      = none := by
  have hfp : (Analytics.mk [[(100:ℚ),100],[100,100],[100,100]] 100 10 1 252).finalPrices
      = [100,100,100] := by
    simp [Analytics.finalPrices]
  have hp : percentile 5 [(100:ℚ),100,100] = 100 := by
    simp [percentile, List.insertionSort, List.orderedInsert]
    norm_num
  have hne : (Analytics.mk [[(100:ℚ),100],[100,100],[100,100]] 100 10 1 252).finalPrices ≠ [] := by
    rw [hfp]
    simp
  have h : ∀ f ∈ (Analytics.mk [[(100:ℚ),100],[100,100],[100,100]] 100 10 1 252).finalPrices,
      ¬ f < percentile 5 (Analytics.mk [[(100:ℚ),100],[100,100],[100,100]] 100 10 1 252).finalPrices := by
    rw [hfp, hp]
    intro f hf
    fin_cases hf <;> norm_num
  exact ⟨⟨hne, h⟩, risk_cvar_none_of_no_below _ hne h⟩

/-! ### C2 — constructor validation -/

/-- C2 counterexample: the matrix `[[-5, 3], [2, 4]]` is malformed (it contains
a non-positive entry), yet the constructor accepts it without error and
`get_final_stats` happily computes metrics from it (mean 7/2, probability of
profit 1, std dev 1/2) — no fail-fast validation exists. -/
theorem analytics_metrics_computed_on_malformed_counterexample :
    Analytics.init [[(-5:ℝ), 3], [2, 4]] 100 252
      = some (Analytics.mk [[(-5:ℝ), 3], [2, 4]] (-5) 100 1 252) ∧
    (Analytics.mk [[(-5:ℝ), 3], [2, 4]] (-5) 100 1 252).get_final_stats
      = some ⟨7/2, 1, 1/2⟩ := by
  refine ⟨rfl, ?_⟩
  have hfp : (Analytics.mk [[(-5:ℝ), 3], [2, 4]] (-5) 100 1 252).finalPrices = [3, 4] := by
    simp [Analytics.finalPrices]
  simp [Analytics.get_final_stats, hfp, npMean, npStd]
  norm_num
  rw [inv_eq_one_div, div_div, Real.mul_self_sqrt (by norm_num)]

/-- C2 amended: the constructor validates nothing beyond the indexability of
`price_matrix[0, 0]`: any matrix whose first row has a first entry — whatever
its shape or sign pattern — is accepted, and the session fields are populated
from it (so every metric is subsequently computed from the unvalidated
matrix). -/
theorem analytics_init_accepts_any_first_entry {α : Type} [LinearOrderedField α] [FloorRing α]
    (x : α) (r : List α) (rest : Mat α) (len_history annual_periods : ℕ) :
    Analytics.init ((x :: r) :: rest) len_history annual_periods
      = some (Analytics.mk ((x :: r) :: rest) x len_history r.length annual_periods) := by
  simp [Analytics.init]

/-! ### C6 — validity check tiers -/

/-- C6: the validity check returns status "Critical" exactly when
`len_simulation > 0.5 * len_history`, "Warning" exactly when
`0.3 * len_history < len_simulation <= 0.5 * len_history`, and "Safe" exactly
otherwise; in particular (100, 60) is Critical, (100, 40) is Warning and
(100, 20) is Safe (shown for both the Analytics method and the free
simulator-module function). -/
theorem validity_check_tiers :
    (∀ h s : ℕ,
      (((Analytics.mk ([] : Mat ℚ) 0 h s 252).validity_check).1 = "Critical"
          ↔ (s:ℚ) > 1/2 * (h:ℚ)) ∧
      (((Analytics.mk ([] : Mat ℚ) 0 h s 252).validity_check).1 = "Warning"
          ↔ (3/10 * (h:ℚ) < (s:ℚ) ∧ (s:ℚ) ≤ 1/2 * (h:ℚ))) ∧
      (((Analytics.mk ([] : Mat ℚ) 0 h s 252).validity_check).1 = "Safe"
          ↔ (s:ℚ) ≤ 3/10 * (h:ℚ))) ∧
    ((Analytics.mk ([] : Mat ℚ) 0 100 60 252).validity_check).1 = "Critical" ∧
    ((Analytics.mk ([] : Mat ℚ) 0 100 40 252).validity_check).1 = "Warning" ∧
    ((Analytics.mk ([] : Mat ℚ) 0 100 20 252).validity_check).1 = "Safe" ∧
    validity_check 100 60 = "Critical: Not enough historical data for simulation of this length" ∧
    validity_check 100 40 = "Warning: Simulation duration is long relative to historical data" ∧
    validity_check 100 20 = "Safe" := by
  refine ⟨fun h s => ?_,
    by norm_num [Analytics.validity_check],
    by norm_num [Analytics.validity_check],
    by norm_num [Analytics.validity_check],
    by norm_num [validity_check],
    by norm_num [validity_check],
    by norm_num [validity_check]⟩
  have hh : (0:ℚ) ≤ (h:ℚ) := Nat.cast_nonneg h
  simp only [Analytics.validity_check]
  split_ifs with c1 c2
  · refine ⟨by simpa using c1, by simp; intro h1; linarith, by simp; linarith⟩
  · push_neg at c1
    refine ⟨by simpa using c1.not_lt, by simp; exact ⟨c2, by linarith⟩, by simp; linarith⟩
  · push_neg at c1 c2
    refine ⟨by simpa using c1.not_lt, by simp; intro h1; linarith, by simpa using c2⟩

/-! ### C8 — VaR/CVaR relations -/

/-- C8 counterexample: on the well-formed strictly-positive matrix
`[[100,50],[100,50],[100,50]]` the 5th percentile of terminal prices (50) is
below the start price (100), yet CVaR is the mean of an empty set (NaN in the
source, `none` here) — not a non-negative value as the claim states for every
such matrix. -/
theorem risk_cvar_below_start_counterexample :
    percentile 5 ((Analytics.mk [[(100:ℚ),50],[100,50],[100,50]] 100 10 1 252).finalPrices)
      = 50 ∧
    ((Analytics.mk [[(100:ℚ),50],[100,50],[100,50]] 100 10 1 252).get_risk_metrics).var_dollar
      = 50 ∧
    ((Analytics.mk [[(100:ℚ),50],[100,50],[100,50]] 100 10 1 252).get_risk_metrics).cvar_dollar
      = none := by
  have hfp : (Analytics.mk [[(100:ℚ),50],[100,50],[100,50]] 100 10 1 252).finalPrices
      = [50,50,50] := by
    simp [Analytics.finalPrices]
  have hp : percentile 5 [(50:ℚ),50,50] = 50 := by
    simp [percentile, List.insertionSort, List.orderedInsert]
    norm_num
  refine ⟨by rw [hfp, hp], ?_, ?_⟩
  · simp [Analytics.get_risk_metrics, hfp, hp, npMean]
    norm_num
  · simp [Analytics.get_risk_metrics, hfp, hp, npMean]

/-- C8 amended: whenever the 5th percentile of terminal prices is below the
start price AND at least one terminal price falls strictly below that
percentile (so the CVaR mean is over a nonempty set), dollar VaR is
non-negative and dollar CVaR is defined, non-negative and at least as large as
dollar VaR. -/
theorem risk_cvar_ge_var_of_below_nonempty {α : Type} [LinearOrderedField α] [FloorRing α]
    (a : Analytics α)
    (h1 : percentile 5 a.finalPrices < a.start_price)
    (h2 : ∃ f ∈ a.finalPrices, f < percentile 5 a.finalPrices) :
    0 ≤ (a.get_risk_metrics).var_dollar ∧
    ∃ c, (a.get_risk_metrics).cvar_dollar = some c ∧ 0 ≤ c ∧
      (a.get_risk_metrics).var_dollar ≤ c := by
  set p5 := percentile 5 a.finalPrices with hp5
  have hbelow_ne : a.finalPrices.filter (fun x => decide (x < p5)) ≠ [] := by
    rcases h2 with ⟨f, hf, hflt⟩
    intro hnil
    have hmem : f ∈ a.finalPrices.filter (fun x => decide (x < p5)) := by
      simp [List.mem_filter, hf, hflt]
    rw [hnil] at hmem
    simp at hmem
  have hall : ∀ x ∈ a.finalPrices.filter (fun x => decide (x < p5)), x < p5 := by
    intro x hx
    have hx2 := List.of_mem_filter hx
    simpa using hx2
  obtain ⟨m, hm, hmlt⟩ := npMean_lt_of_forall_lt _ p5 hbelow_ne hall
  refine ⟨by simp [Analytics.get_risk_metrics]; linarith, a.start_price - m, ?_,
    by linarith, ?_⟩
  · simp [Analytics.get_risk_metrics, hm]
  · simp [Analytics.get_risk_metrics]
    linarith

/-- Witness for `risk_cvar_ge_var_of_below_nonempty` at a 3-trajectory matrix
with terminal prices 10, 50, 60 (5th percentile 14). -/
theorem risk_cvar_ge_var_of_below_nonempty_witness :
    (percentile 5 ((Analytics.mk [[(100:ℚ),10],[100,50],[100,60]] 100 10 1 252).finalPrices)
        < (Analytics.mk [[(100:ℚ),10],[100,50],[100,60]] 100 10 1 252).start_price ∧
      ∃ f ∈ (Analytics.mk [[(100:ℚ),10],[100,50],[100,60]] 100 10 1 252).finalPrices,
        f < percentile 5 ((Analytics.mk [[(100:ℚ),10],[100,50],[100,60]] 100 10 1 252).finalPrices)) ∧
    0 ≤ ((Analytics.mk [[(100:ℚ),10],[100,50],[100,60]] 100 10 1 252).get_risk_metrics).var_dollar ∧
    ∃ c, ((Analytics.mk [[(100:ℚ),10],[100,50],[100,60]] 100 10 1 252).get_risk_metrics).cvar_dollar
        = some c ∧ 0 ≤ c ∧
      ((Analytics.mk [[(100:ℚ),10],[100,50],[100,60]] 100 10 1 252).get_risk_metrics).var_dollar ≤ c := by
  have hfp : (Analytics.mk [[(100:ℚ),10],[100,50],[100,60]] 100 10 1 252).finalPrices
      = [10,50,60] := by
    simp [Analytics.finalPrices]
  have hp : percentile 5 [(10:ℚ),50,60] = 14 := by
    simp [percentile, List.insertionSort, List.orderedInsert]
    norm_num [Int.fract_eq_self.mpr (by norm_num : 0 ≤ (1:ℚ)/10 ∧ (1:ℚ)/10 < 1)]
  have h1 : percentile 5 ((Analytics.mk [[(100:ℚ),10],[100,50],[100,60]] 100 10 1 252).finalPrices)
      < (Analytics.mk [[(100:ℚ),10],[100,50],[100,60]] 100 10 1 252).start_price := by
    rw [hfp, hp]
    norm_num
  have h2 : ∃ f ∈ (Analytics.mk [[(100:ℚ),10],[100,50],[100,60]] 100 10 1 252).finalPrices,
      f < percentile 5 ((Analytics.mk [[(100:ℚ),10],[100,50],[100,60]] 100 10 1 252).finalPrices) := by
    rw [hfp, hp]
    exact ⟨10, by simp, by norm_num⟩
  exact ⟨⟨h1, h2⟩, risk_cvar_ge_var_of_below_nonempty _ h1 h2⟩

/-! ### Helper lemmas for the simulator -/

theorem cumprodFrom_cons (c x : ℝ) (xs : List ℝ) :
    cumprodFrom c (x :: xs) = (c * x) :: cumprodFrom (c * x) xs := rfl

theorem cumprodFrom_length : ∀ (l : List ℝ) (c : ℝ), (cumprodFrom c l).length = l.length := by
  intro l
  induction l with
  | nil => intro c; rfl
  | cons x xs ih => intro c; simp [cumprodFrom, ih]

theorem cumprodFrom_pos : ∀ (l : List ℝ) (c : ℝ), 0 < c → (∀ x ∈ l, 0 < x) →
    ∀ y ∈ cumprodFrom c l, 0 < y := by
  intro l
  induction l with
  | nil => intro c _ _ y hy; simp [cumprodFrom] at hy
  | cons x xs ih =>
    intro c hc hl y hy
    have hx : 0 < x := hl x (by simp)
    simp only [cumprodFrom, List.mem_cons] at hy
    rcases hy with rfl | hy
    · exact mul_pos hc hx
    · exact ih (c * x) (mul_pos hc hx) (fun w hw => hl w (by simp [hw])) y hy

theorem getLastD_map_cumprodFrom :
    ∀ (l : List ℝ) (c last d : ℝ), l ≠ [] →
      ((cumprodFrom c l).map (fun x => last * x)).getLastD d = last * (c * l.prod) := by
  intro l
  induction l with
  | nil => intro c last d h; exact absurd rfl h
  | cons x xs ih =>
    intro c last d _
    rcases xs with _ | ⟨y, ys⟩
    · simp [cumprodFrom]
    · have hne : (y :: ys) ≠ [] := by simp
      rw [cumprodFrom_cons, List.map_cons, List.getLastD_cons]
      rw [ih (c * x) last (last * (c * x)) hne]
      simp only [List.prod_cons]
      ring

/-! ### C3 — shape of the simulated matrix -/

/-- C3: for every `ReturnStatistics`, horizon `days` and iteration count, the
simulated matrix has `iterations` rows, every row has length `days + 1`, every
row starts with `last_price`, and for `days = 0` every row is exactly
`[last_price]`. -/
theorem generate_price_paths_shape (stats : ReturnStatistics) (days iterations : ℕ)
    (z : ℕ → ℕ → ℝ) :
    (generate_price_paths stats days iterations z).length = iterations ∧
    (generate_price_paths stats days iterations z).map List.length
      = List.replicate iterations (days + 1) ∧
    (generate_price_paths stats days iterations z).map List.head?
      = List.replicate iterations (some stats.last_price) ∧
    generate_price_paths stats 0 iterations z
      = List.replicate iterations [stats.last_price] := by
  refine ⟨by simp [generate_price_paths], ?_, ?_, ?_⟩
  · rw [List.eq_replicate_iff]
    refine ⟨by simp [generate_price_paths], ?_⟩
    intro b hb
    simp only [generate_price_paths, List.map_map, List.mem_map, List.mem_range] at hb
    obtain ⟨i, _, hi⟩ := hb
    simp [cumprod, cumprodFrom_length] at hi
    omega
  · rw [List.eq_replicate_iff]
    refine ⟨by simp [generate_price_paths], ?_⟩
    intro b hb
    simp only [generate_price_paths, List.map_map, List.mem_map, List.mem_range] at hb
    obtain ⟨i, _, hi⟩ := hb
    simp at hi
    exact hi.symm
  · rw [List.eq_replicate_iff]
    refine ⟨by simp [generate_price_paths], ?_⟩
    intro b hb
    simp only [generate_price_paths, List.mem_map, List.mem_range] at hb
    obtain ⟨i, _, hi⟩ := hb
    simp [cumprod, cumprodFrom] at hi
    exact hi.symm

/-! ### C4 — strict positivity of the simulated matrix -/

/-- C4: if the last observed price is strictly positive then every entry of
the simulated matrix is strictly positive (each entry is the positive seed
times a product of exponentials), and column 0 is the constant
`last_price` across all rows. -/
theorem generate_price_paths_pos (stats : ReturnStatistics) (days iterations : ℕ)
    (z : ℕ → ℕ → ℝ) (hpos : 0 < stats.last_price) :
    (∀ row ∈ generate_price_paths stats days iterations z, ∀ p ∈ row, 0 < p) ∧
    (generate_price_paths stats days iterations z).map List.head?
      = List.replicate iterations (some stats.last_price) := by
  constructor
  · intro row hrow p hp
    simp only [generate_price_paths, List.mem_map, List.mem_range] at hrow
    obtain ⟨i, _, hrow⟩ := hrow
    subst hrow
    simp only [List.mem_cons, List.mem_map] at hp
    rcases hp with rfl | ⟨c, hc, rfl⟩
    · exact hpos
    · refine mul_pos hpos ?_
      refine cumprodFrom_pos _ 1 one_pos ?_ c hc
      intro x hx
      simp only [List.mem_map, List.mem_range] at hx
      obtain ⟨t, _, rfl⟩ := hx
      exact Real.exp_pos _
  · rw [List.eq_replicate_iff]
    refine ⟨by simp [generate_price_paths], ?_⟩
    intro b hb
    simp only [generate_price_paths, List.map_map, List.mem_map, List.mem_range] at hb
    obtain ⟨i, _, hi⟩ := hb
    simp at hi
    exact hi.symm

/-- Witness for `generate_price_paths_pos` at `stats = (0, 0, 100)`,
`days = 1`, `iterations = 2`, zero draws. -/
theorem generate_price_paths_pos_witness :
    0 < (ReturnStatistics.mk (0:ℝ) 0 100).last_price ∧
    ((∀ row ∈ generate_price_paths (ReturnStatistics.mk (0:ℝ) 0 100) 1 2 (fun _ _ => 0),
        ∀ p ∈ row, 0 < p) ∧
      (generate_price_paths (ReturnStatistics.mk (0:ℝ) 0 100) 1 2 (fun _ _ => 0)).map List.head?
        = List.replicate 2 (some (ReturnStatistics.mk (0:ℝ) 0 100).last_price)) :=
  ⟨(by norm_num : (0:ℝ) < 100),
    generate_price_paths_pos (ReturnStatistics.mk (0:ℝ) 0 100) 1 2 (fun _ _ => 0)
      (by norm_num : (0:ℝ) < 100)⟩

/-! ### C5 — deterministic path at zero volatility -/

/-- C5: with volatility 0 and a single trajectory, the terminal price is the
closed form `last_price * exp(mu * days)` and `get_final_stats` on the
simulated matrix reports that value as the mean and a standard deviation of
exactly 0 (for `days = 0` the path degenerates to `[last_price]`, consistent
with `exp(mu * 0) = 1`). -/
theorem zero_volatility_final_stats (mu last : ℝ) (hist days : ℕ) (z : ℕ → ℕ → ℝ) :
    ∃ a, Analytics.init (generate_price_paths ⟨mu, 0, last⟩ days 1 z) hist 252 = some a ∧
      (a.get_final_stats).map FinalStats.mean = some (last * Real.exp (mu * (days : ℝ))) ∧
      (a.get_final_stats).map FinalStats.std_dev = some 0 := by
  have hgen : generate_price_paths ⟨mu, 0, last⟩ days 1 z
      = [last :: (cumprod (List.replicate days (Real.exp mu))).map (fun c => last * c)] := by
    simp [generate_price_paths, List.range_succ]
  have hterm : (last :: (cumprod (List.replicate days (Real.exp mu))).map
        (fun c => last * c)).getLastD 0 = last * Real.exp (mu * (days : ℝ)) := by
    rcases days with _ | n
    · simp [cumprod, cumprodFrom, Real.exp_zero]
    · rw [List.getLastD_cons]
      have hne : List.replicate (n+1) (Real.exp mu) ≠ [] := by simp
      rw [show cumprod (List.replicate (n+1) (Real.exp mu))
            = cumprodFrom 1 (List.replicate (n+1) (Real.exp mu)) from rfl]
      rw [getLastD_map_cumprodFrom _ 1 last last hne]
      rw [List.prod_replicate, one_mul]
      rw [show mu * (((n+1:ℕ)) : ℝ) = (((n+1:ℕ)) : ℝ) * mu by ring]
      rw [Real.exp_nat_mul]
  set row := last :: (cumprod (List.replicate days (Real.exp mu))).map (fun c => last * c)
    with hrow
  refine ⟨Analytics.mk [row] last hist (row.length - 1) 252, ?_, ?_⟩
  · rw [hgen]
    rfl
  · have hfp : (Analytics.mk [row] last hist (row.length - 1) 252).finalPrices
        = [last * Real.exp (mu * (days : ℝ))] := by
      simp only [Analytics.finalPrices, List.map_cons, List.map_nil]
      rw [hterm]
    constructor <;>
      simp [Analytics.get_final_stats, hfp, npMean, npStd]

/-! ### C7 — Sortino ratio with zero downside deviation -/

/-- C7: when every per-period simulated log return is at least the per-period
risk-free log rate, the downside set is all zeros, the root-mean-square
downside deviation is 0, and the guarded Sortino computation returns exactly 0
without dividing. -/
theorem sortino_zero_of_no_downside (a : Analytics ℝ) (rf : ℝ)
    (h1 : (logReturnMatrix a.price_matrix).flatten ≠ [])
    (h2 : ∀ r ∈ (logReturnMatrix a.price_matrix).flatten,
      Real.log (1 + rf) / (a.annual_periods : ℝ) ≤ r) :
    a.get_expected_sortino_ratio rf = some 0 := by
  have hmap : (logReturnMatrix a.price_matrix).flatten.map
        (fun r => if r - Real.log (1 + rf) / (a.annual_periods : ℝ) < 0
          then r - Real.log (1 + rf) / (a.annual_periods : ℝ) else 0)
      = List.replicate (logReturnMatrix a.price_matrix).flatten.length 0 := by
    rw [List.eq_replicate_iff]
    refine ⟨by rw [List.length_map], ?_⟩
    intro b hb
    simp only [List.mem_map] at hb
    obtain ⟨r, hr, rfl⟩ := hb
    have hge := h2 r hr
    rw [if_neg (by linarith)]
  have hlen : (logReturnMatrix a.price_matrix).flatten.length ≠ 0 :=
    fun h0 => h1 (List.length_eq_zero.mp h0)
  have hsq : ((logReturnMatrix a.price_matrix).flatten.map
        (fun r => if r - Real.log (1 + rf) / (a.annual_periods : ℝ) < 0
          then r - Real.log (1 + rf) / (a.annual_periods : ℝ) else 0)).map (fun d => d ^ 2)
      = List.replicate (logReturnMatrix a.price_matrix).flatten.length 0 := by
    rw [hmap]
    simp [List.map_replicate]
  have hmean_sq : npMean (((logReturnMatrix a.price_matrix).flatten.map
        (fun r => if r - Real.log (1 + rf) / (a.annual_periods : ℝ) < 0
          then r - Real.log (1 + rf) / (a.annual_periods : ℝ) else 0)).map (fun d => d ^ 2))
      = some 0 := by
    have hrep_ne : List.replicate (logReturnMatrix a.price_matrix).flatten.length (0:ℝ)
        ≠ [] := by
      intro hnil
      have hln := congrArg List.length hnil
      simp only [List.length_replicate, List.length_nil] at hln
      exact hlen hln
    rw [hsq, npMean_of_ne_nil _ hrep_ne]
    simp
  simp only [Analytics.get_expected_sortino_ratio]
  rw [hmean_sq, npMean_of_ne_nil _ h1]
  simp [Real.sqrt_zero]

/-- Witness for `sortino_zero_of_no_downside` at the matrix `[[1, 2]]` with a
zero risk-free rate. -/
theorem sortino_zero_of_no_downside_witness :
    ((logReturnMatrix (Analytics.mk [[(1:ℝ),2]] 1 10 1 252).price_matrix).flatten ≠ [] ∧
      ∀ r ∈ (logReturnMatrix (Analytics.mk [[(1:ℝ),2]] 1 10 1 252).price_matrix).flatten,
        Real.log (1 + 0) / (((Analytics.mk [[(1:ℝ),2]] 1 10 1 252).annual_periods : ℕ) : ℝ)
          ≤ r) ∧
    (Analytics.mk [[(1:ℝ),2]] 1 10 1 252).get_expected_sortino_ratio 0 = some 0 := by
  have hlog : logReturnMatrix (Analytics.mk [[(1:ℝ),2]] 1 10 1 252).price_matrix
      = [[Real.log 2]] := by
    simp [logReturnMatrix]
  have h1 : (logReturnMatrix (Analytics.mk [[(1:ℝ),2]] 1 10 1 252).price_matrix).flatten
      ≠ [] := by
    rw [hlog]
    simp
  have h2 : ∀ r ∈ (logReturnMatrix (Analytics.mk [[(1:ℝ),2]] 1 10 1 252).price_matrix).flatten,
      Real.log (1 + 0) / (((Analytics.mk [[(1:ℝ),2]] 1 10 1 252).annual_periods : ℕ) : ℝ)
        ≤ r := by
    rw [hlog]
    intro r hr
    simp only [List.flatten_cons, List.flatten_nil, List.append_nil, List.mem_singleton] at hr
    subst hr
    simp only [add_zero, Real.log_one, zero_div]
    exact Real.log_nonneg one_le_two
  exact ⟨⟨h1, h2⟩, sortino_zero_of_no_downside _ 0 h1 h2⟩

/-! ### C9 — average maximum drawdown of monotone trajectories -/

theorem runMaxFrom_of_chain {α : Type} [LinearOrderedField α] :
    ∀ (xs : List α) (c : α), List.Chain' (fun a b => a ≤ b) (c :: xs) →
      runMaxFrom c xs = c :: xs := by
  intro xs
  induction xs with
  | nil => intro c _; rfl
  | cons x t ih =>
    intro c hc
    rw [List.chain'_cons] at hc
    simp only [runMaxFrom]
    rw [max_eq_right hc.1, ih x hc.2]

theorem runningMax_of_chain {α : Type} [LinearOrderedField α]
    (row : List α) (h : List.Chain' (fun a b => a ≤ b) row) : runningMax row = row := by
  cases row with
  | nil => rfl
  | cons x xs => exact runMaxFrom_of_chain xs x h

theorem zipWith_dd_self {α : Type} [LinearOrderedField α] :
    ∀ (l : List α), List.zipWith (fun p x => (p - x) / p) l l = List.replicate l.length 0 := by
  intro l
  induction l with
  | nil => rfl
  | cons x xs ih => simp [List.zipWith_cons_cons, ih, sub_self, zero_div, List.replicate_succ]

theorem drawdownRow_of_chain {α : Type} [LinearOrderedField α]
    (row : List α) (h : List.Chain' (fun a b => a ≤ b) row) :
    drawdownRow row = List.replicate row.length 0 := by
  unfold drawdownRow
  rw [runningMax_of_chain row h, zipWith_dd_self]

theorem foldl_max_zero {α : Type} [LinearOrderedField α] :
    ∀ (n : ℕ), List.foldl max (0:α) (List.replicate n 0) = 0 := by
  intro n
  induction n with
  | zero => rfl
  | succ k ih => simp [List.replicate_succ, ih]

theorem npMax_replicate_zero {α : Type} [LinearOrderedField α] (n : ℕ) :
    npMax (List.replicate n (0:α)) = 0 := by
  cases n with
  | zero => rfl
  | succ k =>
    simp only [List.replicate_succ, npMax]
    exact foldl_max_zero k

theorem getD_zero_of_all_zero {α : Type} [LinearOrderedField α] :
    ∀ (l : List α) (i : ℕ), (∀ x ∈ l, x = 0) → l.getD i 0 = 0 := by
  intro l
  induction l with
  | nil => intro i _; simp
  | cons x xs ih =>
    intro i h
    cases i with
    | zero => simpa using h x (by simp)
    | succ j => simpa using ih j (fun y hy => h y (by simp [hy]))

theorem percentile_of_all_zero {α : Type} [LinearOrderedField α] [FloorRing α]
    (q : α) (l : List α) (h : ∀ x ∈ l, x = 0) : percentile q l = 0 := by
  have hs : ∀ x ∈ l.insertionSort (fun a b => a ≤ b), x = 0 := by
    intro x hx
    exact h x ((List.perm_insertionSort (fun a b => a ≤ b) l).mem_iff.mp hx)
  simp only [percentile]
  rw [getD_zero_of_all_zero _ _ hs, getD_zero_of_all_zero _ _ hs]
  ring

/-- C9: `get_average_maximum_drawdown` takes, per trajectory, the maximum over
time of `(peak - price)/peak` and reports the 95th percentile of those maxima;
on a matrix whose rows are all non-decreasing (and strictly positive, hence
nonempty), the running peak equals the price everywhere, every per-trajectory
maximum drawdown is 0, and the reported value is 0. -/
theorem average_maximum_drawdown_zero_of_monotone (a : Analytics ℚ)
    (h : ∀ row ∈ a.price_matrix,
      row ≠ [] ∧ (∀ x ∈ row, 0 < x) ∧ List.Chain' (fun p q => p ≤ q) row) :
    a.get_average_maximum_drawdown = 0 := by
  unfold Analytics.get_average_maximum_drawdown
  apply percentile_of_all_zero
  intro x hx
  simp only [drawdownMatrix, List.map_map, List.mem_map, Function.comp] at hx
  obtain ⟨row, hrow, rfl⟩ := hx
  rw [drawdownRow_of_chain row (h row hrow).2.2]
  exact npMax_replicate_zero _

/-- Witness for `average_maximum_drawdown_zero_of_monotone` at the
two-trajectory non-decreasing matrix `[[1,2],[3,3]]`. -/
theorem average_maximum_drawdown_zero_of_monotone_witness :
    (∀ row ∈ (Analytics.mk [[(1:ℚ),2],[3,3]] 1 10 1 252).price_matrix,
      row ≠ [] ∧ (∀ x ∈ row, 0 < x) ∧ List.Chain' (fun p q => p ≤ q) row) ∧
    (Analytics.mk [[(1:ℚ),2],[3,3]] 1 10 1 252).get_average_maximum_drawdown = 0 := by
  have h : ∀ row ∈ (Analytics.mk [[(1:ℚ),2],[3,3]] 1 10 1 252).price_matrix,
      row ≠ [] ∧ (∀ x ∈ row, 0 < x) ∧ List.Chain' (fun p q => p ≤ q) row := by
    intro row hrow
    simp only [List.mem_cons, List.not_mem_nil, or_false] at hrow
    rcases hrow with rfl | rfl
    · refine ⟨by simp, ?_, ?_⟩
      · intro x hx
        fin_cases hx <;> norm_num
      · simp [List.chain'_cons]
    · refine ⟨by simp, ?_, ?_⟩
      · intro x hx
        fin_cases hx <;> norm_num
      · simp [List.chain'_cons]
  exact ⟨h, average_maximum_drawdown_zero_of_monotone _ h⟩

/-! ### C10 — unguarded Sharpe division by a zero standard deviation -/

/-- C10: the deterministic zero-volatility simulation of a flat price (two
trajectories, one step) yields the well-formed strictly-positive matrix
`[[1,1],[1,1]]`; on it the standard deviation of the period log returns — the
Sharpe divisor — is exactly 0, and the Sharpe computation (which, unlike
Sortino, has no zero-divisor guard) performs the division by zero and yields
an undefined value (`none`, a non-finite float in the source), while the
guarded Sortino returns 0 on the same input. -/
theorem sharpe_divides_by_zero_std_unguarded :
    Analytics.init (generate_price_paths ⟨0, 0, 1⟩ 1 2 (fun _ _ => 0)) 100 252
      = some (Analytics.mk [[(1:ℝ),1],[1,1]] 1 100 1 252) ∧
    npStd ((logReturnMatrix (Analytics.mk [[(1:ℝ),1],[1,1]] 1 100 1 252).price_matrix).flatten)
      = some 0 ∧
    (Analytics.mk [[(1:ℝ),1],[1,1]] 1 100 1 252).get_expected_sharpe_ratio 0 = none ∧
    (Analytics.mk [[(1:ℝ),1],[1,1]] 1 100 1 252).get_expected_sortino_ratio 0 = some 0 := by
  have hgen : generate_price_paths ⟨0, 0, 1⟩ 1 2 (fun _ _ => 0) = [[(1:ℝ),1],[1,1]] := by
    simp [generate_price_paths, List.range_succ, cumprod, cumprodFrom]
  have hlog : logReturnMatrix [[(1:ℝ),1],[1,1]] = [[0],[0]] := by
    simp [logReturnMatrix]
  refine ⟨by rw [hgen]; rfl, ?_, ?_, ?_⟩
  · rw [show (Analytics.mk [[(1:ℝ),1],[1,1]] 1 100 1 252).price_matrix
        = [[(1:ℝ),1],[1,1]] from rfl, hlog]
    simp [npStd, npMean]
  · simp only [Analytics.get_expected_sharpe_ratio]
    rw [hlog]
    simp [npMean, npStd, fdiv]
  · simp only [Analytics.get_expected_sortino_ratio]
    rw [hlog]
    simp [npMean, fdiv]

end MarketMC
